import Mathlib

/-!
Verification of the memory storage-and-retrieval engine (memories, facts,
per-mode vector namespaces, similarity search, tag operations and the
embedding-mode lifecycle).  Each operation below is a shallow embedding of
the corresponding source function: SQLite tables become lists of rows,
JavaScript numbers used in scoring become exact rationals (the real
`normalize` over the reals), and the external collaborators (embedding
providers, the regex compiler) become explicit oracles passed as arguments.
Effectful inputs of the source (generated ids, `Date.now()`) are passed
explicitly.
-/

namespace McpMem

-- Restore the default reducibility of rational arithmetic so that concrete
-- runs of the model evaluate inside `decide`.
attribute [local semireducible] Rat.add Rat.mul Rat.sub Rat.inv

deriving instance DecidableEq for Except

/-! ## String primitives (models of the JavaScript string operations used) -/

/-- Model of `s.toLowerCase()` applied before comparisons: the character
list of `s` with every character lowered. -/
def lowerChars (s : String) : List Char := s.data.map Char.toLower

/-- `startsWithChars big small` : `small` occurs at the start of `big`. -/
def startsWithChars : List Char → List Char → Bool
  | _, [] => true
  | [], _ :: _ => false
  | a :: as, b :: bs => a == b && startsWithChars as bs

/-- Model of JavaScript `big.includes(small)` (substring test). -/
def charsIncludes (big small : List Char) : Bool :=
  startsWithChars big small ||
    (match big with
     | [] => false
     | _ :: t => charsIncludes t small)

/-- Lexicographic comparison of character lists; model of the comparator
`a.tag.localeCompare(b.tag)` used to sort tag metadata. -/
def charsLe : List Char → List Char → Bool
  | [], _ => true
  | _ :: _, [] => false
  | a :: as, b :: bs => a < b || (a == b && charsLe as bs)

/-! ## Vector utilities (`vector.ts`) -/

/-- `dotProduct` from `vector.ts`:
`a.reduce((sum, val, i) => sum + val * b[i], 0)`, modelled on aligned
pairs (stored vectors of a namespace share its fixed dimension). -/
def dotProduct (a b : List ℚ) : ℚ :=
  (a.zip b).foldl (fun sum p => sum + p.1 * p.2) 0

/-- The sum of squares `vector.reduce((sum, val) => sum + val * val, 0)`
computed by `normalize`, over the reals. -/
def sumSq (v : List ℝ) : ℝ := v.foldl (fun sum val => sum + val * val) 0

/-- `normalize` from `vector.ts`: divide by the magnitude
`Math.sqrt(Σ val²)` unless the magnitude is zero, in which case the
vector is returned unchanged. -/
noncomputable def normalize (v : List ℝ) : List ℝ :=
  let magnitude := Real.sqrt (sumSq v)
  if magnitude = 0 then v else v.map (fun val => val / magnitude)

/-! ## Data model (`types.ts`, `database.ts` schema) -/

/-- A row of the `memories` table. -/
structure Memory where
  id : String
  contextId : String
  text : String
  tags : List String
  createdAt : Nat
  updatedAt : Nat
  version : Nat
  directAccessOnly : Bool
deriving DecidableEq, Repr

/-- A row of the `facts` table. -/
structure Fact where
  id : String
  memoryId : String
  text : String
  createdAt : Nat
  updatedAt : Nat
  version : Nat
deriving DecidableEq, Repr

/-- A row of one of the `fact_vectors_*` tables. -/
structure VectorRow where
  factId : String
  dim : Nat
  unitNorm : Nat
  embedding : List ℚ
deriving DecidableEq, Repr

/-- The three registered embedding modes (`EmbeddingType`). -/
inductive EmbeddingType where
  | openai
  | local_english
  | local_multilingual
deriving DecidableEq, Repr

/-- The database: the `memories` and `facts` tables and the three vector
namespaces `fact_vectors_openai`, `fact_vectors_local_en`,
`fact_vectors_local_ml` (schema of `initDatabase`). -/
structure DB where
  memories : List Memory
  facts : List Fact
  vecOpenai : List VectorRow
  vecLocalEn : List VectorRow
  vecLocalMl : List VectorRow
deriving DecidableEq, Repr

/-- The vector namespace of a mode (`EMBEDDING_CONFIGS[type].tableName`). -/
def DB.ns (db : DB) : EmbeddingType → List VectorRow
  | .openai => db.vecOpenai
  | .local_english => db.vecLocalEn
  | .local_multilingual => db.vecLocalMl

/-- Replace the vector namespace of a mode. -/
def DB.setNs (db : DB) (t : EmbeddingType) (rows : List VectorRow) : DB :=
  match t with
  | .openai => { db with vecOpenai := rows }
  | .local_english => { db with vecLocalEn := rows }
  | .local_multilingual => { db with vecLocalMl := rows }

/-! ## Entity-store operations (`operations.ts`) -/

/-- `createMemory`: insert a new memory row (version 1).  The generated
short id and `Date.now()` are passed explicitly. -/
def createMemory (db : DB) (contextId text : String) (tags : List String)
    (newId : String) (now : Nat) : Memory × DB :=
  let memory : Memory :=
    { id := newId, contextId := contextId, text := text, tags := tags,
      createdAt := now, updatedAt := now, version := 1,
      directAccessOnly := false }
  (memory, { db with memories := db.memories ++ [memory] })

/-- `createFact`: insert a fact row and one vector row (with
`unit_norm = 1` and `dim = embedding.length`) into the namespace of the
given embedding type. -/
def createFact (db : DB) (memoryId text : String) (embedding : List ℚ)
    (etype : EmbeddingType) (newId : String) (now : Nat) : Fact × DB :=
  let fact : Fact :=
    { id := newId, memoryId := memoryId, text := text,
      createdAt := now, updatedAt := now, version := 1 }
  let row : VectorRow :=
    { factId := newId, dim := embedding.length, unitNorm := 1,
      embedding := embedding }
  let db1 : DB := { db with facts := db.facts ++ [fact] }
  (fact, db1.setNs etype (db1.ns etype ++ [row]))

/-- `getMemory`: `SELECT ... FROM memories WHERE id = ?` — the first row
with the requested id, with no context/tenant predicate. -/
def getMemory (db : DB) (memoryId : String) : Option Memory :=
  db.memories.find? (fun m => m.id == memoryId)

/-- `getFactsByMemoryId`: all fact rows owned by a memory. -/
def getFactsByMemoryId (db : DB) (memoryId : String) : List Fact :=
  db.facts.filter (fun f => f.memoryId == memoryId)

/-- `updateMemory`: verify the memory exists and belongs to the calling
context, then update text, tags and `updated_at` and bump the version;
returns the re-read row. -/
def updateMemory (db : DB) (memoryId contextId text : String)
    (tags : List String) (now : Nat) : Option Memory × DB :=
  match getMemory db memoryId with
  | none => (none, db)
  | some memory =>
    if memory.contextId == contextId then
      let db' : DB :=
        { db with
          memories := db.memories.map (fun r =>
            if r.id == memoryId then
              { r with text := text, tags := tags, updatedAt := now,
                       version := r.version + 1 }
            else r) }
      (getMemory db' memoryId, db')
    else (none, db)

/-- The removal step of `updateMemoryTags`: applied only when the
remove-set is non-empty (`removeTags && removeTags.length > 0`). -/
def applyRemoveTags (currentTags removeTags : List String) : List String :=
  if removeTags.length > 0 then
    currentTags.filter (fun tag => !(removeTags.contains tag))
  else currentTags

/-- The addition step of `updateMemoryTags`: each added tag is appended
only when not already present. -/
def applyAddTags (currentTags addTags : List String) : List String :=
  if addTags.length > 0 then
    addTags.foldl (fun cur tag => if cur.contains tag then cur else cur ++ [tag])
      currentTags
  else currentTags

/-- `updateMemoryTags`: ownership check, then remove-set before add-set on
the tag list, `updated_at := now`, version bump; text and all fact/vector
data untouched. -/
def updateMemoryTags (db : DB) (memoryId contextId : String)
    (addTags removeTags : List String) (now : Nat) : Option Memory × DB :=
  match getMemory db memoryId with
  | none => (none, db)
  | some memory =>
    if memory.contextId == contextId then
      let currentTags := applyAddTags (applyRemoveTags memory.tags removeTags) addTags
      let db' : DB :=
        { db with
          memories := db.memories.map (fun r =>
            if r.id == memoryId then
              { r with tags := currentTags, updatedAt := now,
                       version := r.version + 1 }
            else r) }
      (getMemory db' memoryId, db')
    else (none, db)

/-- Cascade of `ON DELETE CASCADE` from `facts` into the three
`fact_vectors_*` tables (schema of `initDatabase`; the driver enables
foreign-key enforcement). -/
def cascadeVectors (db : DB) (deadFactIds : List String) : DB :=
  { db with
    vecOpenai := db.vecOpenai.filter (fun v => !(deadFactIds.contains v.factId)),
    vecLocalEn := db.vecLocalEn.filter (fun v => !(deadFactIds.contains v.factId)),
    vecLocalMl := db.vecLocalMl.filter (fun v => !(deadFactIds.contains v.factId)) }

/-- `deleteFactsForMemory`: `DELETE FROM facts WHERE memory_id = ?`,
cascading into every vector namespace; returns the change count. -/
def deleteFactsForMemory (db : DB) (memoryId : String) : Nat × DB :=
  let dead := db.facts.filter (fun f => f.memoryId == memoryId)
  let db1 : DB := { db with facts := db.facts.filter (fun f => !(f.memoryId == memoryId)) }
  (dead.length, cascadeVectors db1 (dead.map (fun f => f.id)))

/-- `deleteMemory`: ownership check, then `DELETE FROM memories WHERE id = ?`
with the schema's cascade removing the owned facts and, transitively,
their vector rows in every namespace. -/
def deleteMemory (db : DB) (memoryId contextId : String) : Bool × DB :=
  match getMemory db memoryId with
  | none => (false, db)
  | some memory =>
    if memory.contextId == contextId then
      let db1 : DB := { db with memories := db.memories.filter (fun r => !(r.id == memoryId)) }
      (true, (deleteFactsForMemory db1 memoryId).2)
    else (false, db)

/-! ## Similarity search (`searchFacts`) -/

/-- One row of the join
`facts JOIN fact_vectors_* ON fact_id JOIN memories ON memory_id
WHERE context_id = ?`. -/
structure JoinRow where
  fact : Fact
  embedding : List ℚ
  mem : Memory
deriving DecidableEq, Repr

/-- The join underlying `searchFacts`, in fact-table order; `fact_id` and
memory `id` are primary keys, so each fact joins with at most one vector
row and one memory row. -/
def joinRows (db : DB) (contextId : String) (etype : EmbeddingType) : List JoinRow :=
  db.facts.filterMap (fun f =>
    match (db.ns etype).find? (fun v => v.factId == f.id),
          db.memories.find? (fun m => m.id == f.memoryId) with
    | some v, some m =>
      if m.contextId == contextId then some ⟨f, v.embedding, m⟩ else none
    | _, _ => none)

/-- The inner loop of the tag-boost count: scan the memory's (lowered)
tags and stop at the first tag where either side contains the other. -/
def boostTagHits (boostTag : List Char) : List (List Char) → Bool
  | [] => false
  | memoryTag :: rest =>
    if charsIncludes memoryTag boostTag || charsIncludes boostTag memoryTag then
      true
    else boostTagHits boostTag rest

/-- The outer loop of the tag-boost count: each boost tag contributes at
most once (the `break` after a hit). -/
def countBoostMatches (boostTags memoryTags : List (List Char)) : Nat :=
  boostTags.foldl
    (fun acc boostTag =>
      if boostTagHits boostTag memoryTags then acc + 1 else acc) 0

/-- A search result row: the fact, its total score, and the owning memory. -/
structure FactWithScore where
  fact : Fact
  score : ℚ
  memory : Memory
deriving DecidableEq, Repr

/-- The per-row scoring of `searchFacts`: dot product plus
`lambda * matches` when boost tags were supplied. -/
def scoreRow (queryVector : List ℚ) (normalizedBoostTags : List (List Char))
    (lambda : ℚ) (row : JoinRow) : FactWithScore :=
  let vectorScore := dotProduct queryVector row.embedding
  let tagBoost : ℚ :=
    if normalizedBoostTags.length > 0 then
      lambda * (countBoostMatches normalizedBoostTags (row.mem.tags.map lowerChars) : ℚ)
    else 0
  { fact := row.fact, score := vectorScore + tagBoost, memory := row.mem }

/-- `searchFacts`: load every joined fact of the context in the target
namespace, score each (no hard tag filtering), stable-sort by descending
score and keep the top `topK`.  JavaScript's `Array.prototype.sort` is a
stable sort, modelled by the stable `insertionSort`. -/
def searchFacts (db : DB) (contextId : String) (queryVector : List ℚ)
    (etype : EmbeddingType) (topK : Nat) (boostTags : List String)
    (lambda : ℚ) : List FactWithScore :=
  let normalizedBoostTags := boostTags.map lowerChars
  let scored := (joinRows db contextId etype).map
    (scoreRow queryVector normalizedBoostTags lambda)
  (List.insertionSort (fun a b => a.score ≥ b.score) scored).take topK

/-! ## Backfill queries and vector insertion -/

/-- `getFactsMissingEmbeddings`:
`facts LEFT JOIN <namespace> ON fact_id WHERE fact_id IS NULL` — the
facts of the WHOLE store with no vector row in the target namespace (the
query carries no context/tenant predicate). -/
def getFactsMissingEmbeddings (db : DB) (etype : EmbeddingType) :
    List (String × String) :=
  (db.facts.filter (fun f => !((db.ns etype).any (fun v => v.factId == f.id)))).map
    (fun f => (f.id, f.text))

/-- `countFactsMissingEmbeddings`: `SELECT COUNT(*)` over the same
anti-join. -/
def countFactsMissingEmbeddings (db : DB) (etype : EmbeddingType) : Nat :=
  (db.facts.filter (fun f => !((db.ns etype).any (fun v => v.factId == f.id)))).length

/-- `addEmbeddingToFact`: insert one vector row into the namespace of the
given mode (`unit_norm = 1`, `dim = embedding.length`). -/
def addEmbeddingToFact (db : DB) (factId : String) (embedding : List ℚ)
    (etype : EmbeddingType) : DB :=
  db.setNs etype (db.ns etype ++
    [{ factId := factId, dim := embedding.length, unitNorm := 1,
       embedding := embedding }])

/-! ## Tag enumeration (`getAllTags`) -/

/-- One entry of the tag-metadata result of `getAllTags`. -/
structure TagMetadata where
  tag : String
  memory_count : Nat
  first_memory_date : Nat
  last_memory_date : Nat
deriving DecidableEq, Repr

/-- One step of the tag aggregation map: bump the count and widen the
date range for an existing tag, or append a fresh entry (JavaScript
`Map` preserves insertion order). -/
def bumpTag (acc : List TagMetadata) (tag : String) (createdAt updatedAt : Nat) :
    List TagMetadata :=
  if acc.any (fun e => e.tag == tag) then
    acc.map (fun e =>
      if e.tag == tag then
        { e with memory_count := e.memory_count + 1,
                 first_memory_date := min e.first_memory_date createdAt,
                 last_memory_date := max e.last_memory_date updatedAt }
      else e)
  else acc ++ [{ tag := tag, memory_count := 1, first_memory_date := createdAt,
                 last_memory_date := updatedAt }]

/-- The tag aggregation of `getAllTags` over the context's memory rows. -/
def collectTags (db : DB) (contextId : String) : List TagMetadata :=
  (db.memories.filter (fun m => m.contextId == contextId)).foldl
    (fun acc m => m.tags.foldl (fun a t => bumpTag a t m.createdAt m.updatedAt) acc)
    []

/-- Flag characters accepted by the inline-flags group `(?[imgsuy]+)`. -/
def flagChar (c : Char) : Bool :=
  c == 'i' || c == 'm' || c == 'g' || c == 's' || c == 'u' || c == 'y'

/-- The match of `pattern` against `^\(\?([imgsuy]+)\)`: a leading
`(?flags)` group of one or more flag characters.  Returns the flags and
the remainder of the pattern. -/
def extractInlineFlags (p : List Char) : Option (List Char × List Char) :=
  match p with
  | '(' :: '?' :: rest =>
    let flags := rest.takeWhile flagChar
    if flags.length > 0 then
      match rest.drop flags.length with
      | ')' :: tail => some (flags, tail)
      | _ => none
    else none
  | _ => none

/-- The flags/pattern split of `getAllTags`: the inline-flags group is
stripped and becomes the regex flags; otherwise the whole pattern is
compiled with empty flags. -/
def splitPatternFlags (regexPattern : String) : List Char × List Char :=
  match extractInlineFlags regexPattern.data with
  | some (flags, rest) => (flags, rest)
  | none => ([], regexPattern.data)

/-- `getAllTags`: aggregate the context's tags, sort by tag, then apply
the optional regex filter.  The regex compiler is the JavaScript
`new RegExp(pattern, flags)` constructor, an external collaborator
modelled as the oracle `compile` (returning a predicate on tags, or the
compiler's error message); a compile failure is rethrown as
`Invalid regex pattern: <compiler message>`. -/
def getAllTags (db : DB) (contextId : String) (regexPattern : Option String)
    (compile : List Char → List Char → Except String (String → Bool)) :
    Except String (List TagMetadata) :=
  let allTags := List.insertionSort
    (fun a b => charsLe a.tag.data b.tag.data = true) (collectTags db contextId)
  match regexPattern with
  | none => .ok allTags
  | some rp =>
    if rp.data.length > 0 then
      let fp := splitPatternFlags rp
      match compile fp.2 fp.1 with
      | .error msg => .error ("Invalid regex pattern: " ++ msg)
      | .ok test => .ok (allTags.filter (fun item => test item.tag))
    else .ok allTags

/-! ## Handlers (`add_memory`, `update_memory`, `get_memory`) -/

/-- Outcome of an add/update handler call, as observable by the caller. -/
inductive WriteResult where
  | notFound
  | providerError (message : String)
  | ok (facts : List Fact)
deriving DecidableEq, Repr

/-- The transaction body shared by `handleAddMemory` and
`handleUpdateMemory`: insert one fact (with its vector) per fact text. -/
def insertFactsLoop (db : DB) (memoryId : String) :
    List (String × List ℚ) → EmbeddingType → List String → Nat → List Fact × DB
  | [], _, _, _ => ([], db)
  | (text, emb) :: rest, etype, ids, now =>
    let (fact, db1) := createFact db memoryId text emb etype
      (ids.headD "") now
    let (facts, db2) := insertFactsLoop db1 memoryId rest etype (ids.drop 1) now
    (fact :: facts, db2)

/-- `handleAddMemory`: split/embed FIRST (either may fail with a provider
error, before anything is written), then insert the memory, its facts and
their vectors inside one `db.transaction`.  `embedOutcome` is the result
of `embedder.embedBatch(factTexts)`. -/
def handleAddMemory (db : DB) (contextId text : String) (contextTags : List String)
    (factTexts : List String) (embedOutcome : Except String (List (List ℚ)))
    (etype : EmbeddingType) (memId : String) (factIds : List String) (now : Nat) :
    WriteResult × DB :=
  match embedOutcome with
  | .error e => (.providerError e, db)
  | .ok embeddings =>
    let (memory, db1) := createMemory db contextId text contextTags memId now
    let (facts, db2) :=
      insertFactsLoop db1 memory.id (factTexts.zip embeddings) etype factIds now
    (.ok facts, db2)

/-- The full-update path of `handleUpdateMemory`: update the memory row
(committed immediately), delete the old facts (committed immediately,
cascading their vectors), ONLY THEN call the embedding provider
(`embedOutcome`), and finally insert the replacement facts inside a
`db.transaction`.  A provider failure therefore strikes after the first
two writes are already committed. -/
def handleUpdateMemoryFull (db : DB) (memoryId contextId text : String)
    (contextTags : List String) (factTexts : List String)
    (embedOutcome : Except String (List (List ℚ))) (etype : EmbeddingType)
    (factIds : List String) (now : Nat) : WriteResult × DB :=
  match updateMemory db memoryId contextId text contextTags now with
  | (none, db1) => (.notFound, db1)
  | (some _, db1) =>
    let (_, db2) := deleteFactsForMemory db1 memoryId
    match embedOutcome with
    | .error e => (.providerError e, db2)
    | .ok embeddings =>
      let (facts, db3) :=
        insertFactsLoop db2 memoryId (factTexts.zip embeddings) etype factIds now
      (.ok facts, db3)

/-- `handleGetMemory`: fetch the memory by id (no context check anywhere
on this path) together with its facts. -/
def handleGetMemory (db : DB) (memoryId : String) : Option (Memory × List Fact) :=
  match getMemory db memoryId with
  | none => none
  | some memory => some (memory, getFactsByMemoryId db memoryId)

/-! ## Embedding-mode lifecycle (`factory.ts`) -/

/-- The mode manager's state: the module-level `currentMode` plus the
store. -/
structure ModeState where
  currentMode : Option EmbeddingType
  db : DB
deriving DecidableEq, Repr

/-- Outcome of `switchEmbeddingMode` as seen by the caller: the returned
success value, or the thrown error's message. -/
inductive SwitchResult where
  | ok (message : String)
  | error (message : String)
deriving DecidableEq, Repr

/-- The backfill loop of `switchEmbeddingMode`: process the missing facts
in batches of `bsPred + 1` (100 for OpenAI, 50 for local), calling
`embedBatch` once per batch (`outcomes` holds each call's result) and
inserting one vector row per fact of the batch.  A failing batch aborts
the loop at once; rows inserted by completed batches stay committed. -/
def backfillLoop (etype : EmbeddingType) (bsPred : Nat) :
    List (Except String (List (List ℚ))) → DB → List (String × String) →
    Except String Unit × DB
  | _, db, [] => (.ok (), db)
  | [], db, _ :: _ => (.ok (), db)
  | outcome :: rest, db, p :: pending =>
    match outcome with
    | .error e => (.error e, db)
    | .ok embeddings =>
      let batch := (p :: pending).take (bsPred + 1)
      let db' := (batch.zip embeddings).foldl
        (fun d pr => addEmbeddingToFact d pr.1.1 pr.2 etype) db
      backfillLoop etype bsPred rest db' ((p :: pending).drop (bsPred + 1))

/-- `switchEmbeddingMode`: for the OpenAI target, require and validate the
credential (failure throws BEFORE any state change); then set
`currentMode` to the target, and only afterwards run the backfill of the
facts missing a vector in the target's namespace.  `keyPresent` models
`config.openai.apiKey` being set, `keyValid` the minimal validation call,
and `outcomes` the successive `embedBatch` results. -/
def switchEmbeddingMode (st : ModeState) (mode : EmbeddingType)
    (keyPresent keyValid : Bool)
    (outcomes : List (Except String (List (List ℚ)))) :
    SwitchResult × ModeState :=
  let missingCount := countFactsMissingEmbeddings st.db mode
  match mode with
  | .openai =>
    if !keyPresent then
      (.error "Cannot switch to OpenAI mode: OPENAI_API_KEY not set.", st)
    else if !keyValid then
      (.error "Cannot switch to OpenAI mode: API key validation failed.", st)
    else
      let st1 : ModeState := { st with currentMode := some .openai }
      if missingCount > 0 then
        let factsToEmbed := getFactsMissingEmbeddings st1.db .openai
        match backfillLoop .openai 99 outcomes st1.db factsToEmbed with
        | (.error e, db') => (.error e, { currentMode := some .openai, db := db' })
        | (.ok _, db') =>
          (.ok "Switched to OpenAI embeddings.", { currentMode := some .openai, db := db' })
      else (.ok "Switched to OpenAI embeddings.", st1)
  | m =>
    let st1 : ModeState := { st with currentMode := some m }
    if missingCount > 0 then
      let factsToEmbed := getFactsMissingEmbeddings st1.db m
      match backfillLoop m 49 outcomes st1.db factsToEmbed with
      | (.error e, db') => (.error e, { currentMode := some m, db := db' })
      | (.ok _, db') =>
        (.ok "Switched to local embeddings.", { currentMode := some m, db := db' })
    else (.ok "Switched to local embeddings.", st1)

/-! ## Derived definitions used by the statements -/

/-- `matchCount` as the specification states it: the number of boost tags
that, compared case-insensitively, are a substring of some tag of the
memory or contain such a tag as a substring. -/
def matchCount (boostTags memoryTags : List String) : Nat :=
  boostTags.countP (fun bt =>
    memoryTags.any (fun mt =>
      charsIncludes (lowerChars mt) (lowerChars bt) ||
      charsIncludes (lowerChars bt) (lowerChars mt)))

/-- Referential integrity of the store: every fact row names an existing
memory and every vector row (in any namespace) names an existing fact. -/
def Integrity (db : DB) : Prop :=
  (∀ f ∈ db.facts, ∃ m ∈ db.memories, m.id = f.memoryId) ∧
  (∀ t : EmbeddingType, ∀ v ∈ db.ns t, ∃ f ∈ db.facts, f.id = v.factId)

/-! ## Helper lemmas -/

theorem find?_id_eq {l : List Memory} {m : Memory}
    (hu : (l.map (fun r => r.id)).Nodup) (hm : m ∈ l) :
    l.find? (fun r => r.id == m.id) = some m := by
  induction l with
  | nil => cases hm
  | cons h t ih =>
    rcases List.mem_cons.mp hm with rfl | hmt
    · exact List.find?_cons_of_pos _ (by simp)
    · have hne : h.id ≠ m.id := by
        intro he
        have : m.id ∈ t.map (fun r => r.id) := List.mem_map_of_mem _ hmt
        simp only [List.map_cons, List.nodup_cons] at hu
        exact hu.1 (he ▸ this)
      rw [List.find?_cons_of_neg _ (by simp [hne])]
      exact ih (by simp only [List.map_cons, List.nodup_cons] at hu; exact hu.2) hmt

theorem find?_map_update {l : List Memory} {m : Memory} {memId : String}
    (h : l.find? (fun r => r.id == memId) = some m)
    (f : Memory → Memory) (hf : ∀ r, (f r).id = r.id) :
    (l.map (fun r => if r.id == memId then f r else r)).find?
      (fun r => r.id == memId) = some (f m) := by
  induction l with
  | nil => simp [List.find?] at h
  | cons a t ih =>
    by_cases ha : a.id = memId
    · rw [List.find?_cons_of_pos _ (by simp [ha])] at h
      cases h
      simp only [List.map_cons, if_pos (by simp [ha] : (m.id == memId) = true)]
      exact List.find?_cons_of_pos _ (by simp [hf, ha])
    · rw [List.find?_cons_of_neg _ (by simp [ha])] at h
      simp only [List.map_cons, if_neg (by simp [ha] : ¬(a.id == memId) = true)]
      rw [List.find?_cons_of_neg _ (by simp [ha])]
      exact ih h

theorem length_filter_partition {α : Type} (p : α → Bool) (l : List α) :
    (l.filter p).length + (l.filter (fun x => !(p x))).length = l.length := by
  induction l with
  | nil => rfl
  | cons h t ih =>
    by_cases hp : p h
    · simp [List.filter_cons, hp, ← ih]
      omega
    · simp [List.filter_cons, hp, ← ih]
      omega

theorem boostTagHits_eq_any (bt : List Char) (mts : List (List Char)) :
    boostTagHits bt mts =
      mts.any (fun mt => charsIncludes mt bt || charsIncludes bt mt) := by
  induction mts with
  | nil => rfl
  | cons h t ih =>
    by_cases hc : (charsIncludes h bt || charsIncludes bt h) = true
    · simp [boostTagHits, hc, ih]
    · simp [boostTagHits, hc, ih]

theorem countBoostMatches_eq (bts mts : List (List Char)) :
    countBoostMatches bts mts = bts.countP (fun bt => boostTagHits bt mts) := by
  unfold countBoostMatches
  suffices h : ∀ a : Nat, bts.foldl
      (fun acc bt => if boostTagHits bt mts then acc + 1 else acc) a =
      a + bts.countP (fun bt => boostTagHits bt mts) by
    simpa using h 0
  induction bts with
  | nil => simp
  | cons b rest ih =>
    intro a
    by_cases hb : boostTagHits b mts
    · simp [List.countP_cons, hb, ih]
      omega
    · simp [List.countP_cons, hb, ih]

theorem scoreRow_score (q : List ℚ) (boostTags : List String) (lambda : ℚ)
    (row : JoinRow) :
    (scoreRow q (boostTags.map lowerChars) lambda row).score =
      dotProduct q row.embedding + lambda * matchCount boostTags row.mem.tags := by
  unfold scoreRow
  by_cases h : (boostTags.map lowerChars).length > 0
  · have hc : countBoostMatches (boostTags.map lowerChars)
        (row.mem.tags.map lowerChars) = matchCount boostTags row.mem.tags := by
      rw [countBoostMatches_eq, matchCount, List.countP_map]
      refine List.countP_congr (fun bt _ => ?_)
      simp [Function.comp, boostTagHits_eq_any, List.any_map]
    simp only [h, if_pos, hc]
  · have hbt : boostTags = [] := by
      cases boostTags with
      | nil => rfl
      | cons x xs => simp at h
    subst hbt
    simp [matchCount]

theorem searchFacts_mem {db : DB} {ctx : String} {q : List ℚ}
    {etype : EmbeddingType} {topK : Nat} {boostTags : List String}
    {lambda : ℚ} {r : FactWithScore}
    (hr : r ∈ searchFacts db ctx q etype topK boostTags lambda) :
    ∃ jr ∈ joinRows db ctx etype,
      r = scoreRow q (boostTags.map lowerChars) lambda jr := by
  unfold searchFacts at hr
  have h1 := List.take_subset _ _ hr
  have h2 := (List.perm_insertionSort _ _).mem_iff.mp h1
  obtain ⟨jr, hjr, he⟩ := List.mem_map.mp h2
  exact ⟨jr, hjr, he.symm⟩

theorem ns_setNs_self (db : DB) (t : EmbeddingType) (rows : List VectorRow) :
    (db.setNs t rows).ns t = rows := by
  cases t <;> rfl

theorem ns_setNs_other (db : DB) {t t' : EmbeddingType} (rows : List VectorRow)
    (h : t' ≠ t) : (db.setNs t rows).ns t' = db.ns t' := by
  cases t <;> cases t' <;> first | rfl | exact absurd rfl h

theorem setNs_memories (db : DB) (t : EmbeddingType) (rows : List VectorRow) :
    (db.setNs t rows).memories = db.memories := by
  cases t <;> rfl

theorem setNs_facts (db : DB) (t : EmbeddingType) (rows : List VectorRow) :
    (db.setNs t rows).facts = db.facts := by
  cases t <;> rfl

theorem addEmbeddingToFact_frame (db : DB) (fid : String) (emb : List ℚ)
    (etype : EmbeddingType) :
    (addEmbeddingToFact db fid emb etype).ns etype = db.ns etype ++
      [{ factId := fid, dim := emb.length, unitNorm := 1, embedding := emb }] ∧
    (∀ t, t ≠ etype → (addEmbeddingToFact db fid emb etype).ns t = db.ns t) ∧
    (addEmbeddingToFact db fid emb etype).memories = db.memories ∧
    (addEmbeddingToFact db fid emb etype).facts = db.facts := by
  unfold addEmbeddingToFact
  exact ⟨ns_setNs_self .., fun t ht => ns_setNs_other _ _ ht,
    setNs_memories .., setNs_facts ..⟩

theorem addEmbedding_fold_frame (etype : EmbeddingType)
    (batch : List ((String × String) × List ℚ)) : ∀ db : DB,
    (∀ t, ∃ extra,
      (batch.foldl (fun d pr => addEmbeddingToFact d pr.1.1 pr.2 etype) db).ns t =
        db.ns t ++ extra ∧ (t ≠ etype → extra = [])) ∧
    (batch.foldl (fun d pr => addEmbeddingToFact d pr.1.1 pr.2 etype) db).memories =
      db.memories ∧
    (batch.foldl (fun d pr => addEmbeddingToFact d pr.1.1 pr.2 etype) db).facts =
      db.facts := by
  induction batch with
  | nil => intro db; exact ⟨fun t => ⟨[], by simp, fun _ => rfl⟩, rfl, rfl⟩
  | cons p rest ih =>
    intro db
    have hstep := addEmbeddingToFact_frame db p.1.1 p.2 etype
    obtain ⟨hns, hmem, hfacts⟩ := ih (addEmbeddingToFact db p.1.1 p.2 etype)
    rw [List.foldl_cons]
    refine ⟨fun t => ?_, by rw [hmem, hstep.2.2.1], by rw [hfacts, hstep.2.2.2]⟩
    obtain ⟨extra, he, hother⟩ := hns t
    by_cases ht : t = etype
    · subst ht
      refine ⟨(⟨p.1.1, p.2.length, 1, p.2⟩ : VectorRow) :: extra, ?_,
        fun hne => absurd rfl hne⟩
      rw [he, hstep.1, List.append_assoc, List.singleton_append]
    · exact ⟨extra, by rw [he, hstep.2.1 t ht], fun h2 => hother h2⟩

theorem backfillLoop_frame (etype : EmbeddingType) (bsPred : Nat)
    (outcomes : List (Except String (List (List ℚ)))) :
    ∀ (db : DB) (pending : List (String × String)),
    (∀ t, ∃ extra,
      ((backfillLoop etype bsPred outcomes db pending).2).ns t =
        db.ns t ++ extra ∧ (t ≠ etype → extra = [])) ∧
    ((backfillLoop etype bsPred outcomes db pending).2).memories = db.memories ∧
    ((backfillLoop etype bsPred outcomes db pending).2).facts = db.facts := by
  induction outcomes with
  | nil =>
    intro db pending
    cases pending <;>
      exact ⟨fun t => ⟨[], by simp [backfillLoop], fun _ => rfl⟩, rfl, rfl⟩
  | cons o rest ih =>
    intro db pending
    cases pending with
    | nil => exact ⟨fun t => ⟨[], by simp [backfillLoop], fun _ => rfl⟩, rfl, rfl⟩
    | cons p ps =>
      cases o with
      | error e =>
        exact ⟨fun t => ⟨[], by simp [backfillLoop], fun _ => rfl⟩, rfl, rfl⟩
      | ok embeddings =>
        simp only [backfillLoop]
        set batch := ((p :: ps).take (bsPred + 1)).zip embeddings with hbatch
        set db' := batch.foldl (fun d pr => addEmbeddingToFact d pr.1.1 pr.2 etype) db
          with hdb'
        obtain ⟨hns1, hmem1, hfacts1⟩ := addEmbedding_fold_frame etype batch db
        obtain ⟨hns2, hmem2, hfacts2⟩ := ih db' ((p :: ps).drop (bsPred + 1))
        refine ⟨fun t => ?_, by rw [hmem2, hmem1], by rw [hfacts2, hfacts1]⟩
        obtain ⟨e1, he1, ho1⟩ := hns1 t
        obtain ⟨e2, he2, ho2⟩ := hns2 t
        refine ⟨e1 ++ e2, ?_, fun hne => by rw [ho1 hne, ho2 hne]; rfl⟩
        rw [he2, he1, List.append_assoc]

theorem mem_addTags_fold (addTags : List String) :
    ∀ (cur : List String) (t : String),
    (t ∈ addTags.foldl
        (fun c tag => if c.contains tag then c else c ++ [tag]) cur) ↔
      t ∈ cur ∨ t ∈ addTags := by
  induction addTags with
  | nil => simp
  | cons a rest ih =>
    intro cur t
    rw [List.foldl_cons]
    by_cases hc : cur.contains a
    · rw [if_pos hc, ih]
      constructor
      · rintro (h | h)
        · exact Or.inl h
        · exact Or.inr (List.mem_cons_of_mem _ h)
      · rintro (h | h)
        · exact Or.inl h
        · rcases List.mem_cons.mp h with rfl | h
          · exact Or.inl (by simpa using hc)
          · exact Or.inr h
    · rw [if_neg hc, ih]
      constructor
      · rintro (h | h)
        · rcases List.mem_append.mp h with h | h
          · exact Or.inl h
          · exact Or.inr (by simpa using List.mem_cons.mpr (Or.inl (by simpa using h)))
        · exact Or.inr (List.mem_cons_of_mem _ h)
      · rintro (h | h)
        · exact Or.inl (List.mem_append.mpr (Or.inl h))
        · rcases List.mem_cons.mp h with rfl | h
          · exact Or.inl (List.mem_append.mpr (Or.inr (by simp)))
          · exact Or.inr h

theorem nodup_addTags_fold (addTags : List String) :
    ∀ cur : List String, cur.Nodup →
    (addTags.foldl (fun c tag => if c.contains tag then c else c ++ [tag]) cur).Nodup := by
  induction addTags with
  | nil => intro cur h; simpa using h
  | cons a rest ih =>
    intro cur h
    rw [List.foldl_cons]
    by_cases hc : cur.contains a
    · rw [if_pos hc]; exact ih cur h
    · rw [if_neg hc]
      refine ih _ ?_
      rw [List.nodup_append]
      exact ⟨h, List.nodup_singleton a,
        by simpa using fun hm => hc (by simpa using hm)⟩

theorem mem_applyAddTags (cur addTags : List String) (t : String) :
    t ∈ applyAddTags cur addTags ↔ t ∈ cur ∨ t ∈ addTags := by
  unfold applyAddTags
  by_cases h : addTags.length > 0
  · rw [if_pos h]; exact mem_addTags_fold addTags cur t
  · have : addTags = [] := by
      cases addTags with
      | nil => rfl
      | cons x xs => simp at h
    subst this
    simp

theorem mem_applyRemoveTags (cur removeTags : List String) (t : String) :
    t ∈ applyRemoveTags cur removeTags ↔ t ∈ cur ∧ t ∉ removeTags := by
  unfold applyRemoveTags
  by_cases h : removeTags.length > 0
  · rw [if_pos h]
    simp [List.mem_filter]
  · have : removeTags = [] := by
      cases removeTags with
      | nil => rfl
      | cons x xs => simp at h
    subst this
    simp

theorem nodup_applyRemoveTags (cur removeTags : List String) (h : cur.Nodup) :
    (applyRemoveTags cur removeTags).Nodup := by
  unfold applyRemoveTags
  by_cases hr : removeTags.length > 0
  · rw [if_pos hr]; exact h.filter _
  · rw [if_neg hr]; exact h

theorem nodup_applyAddTags (cur addTags : List String) (h : cur.Nodup) :
    (applyAddTags cur addTags).Nodup := by
  unfold applyAddTags
  by_cases ha : addTags.length > 0
  · rw [if_pos ha]; exact nodup_addTags_fold addTags cur h
  · rw [if_neg ha]; exact h

theorem sumSq_eq_sum (v : List ℝ) : sumSq v = (v.map (fun x => x * x)).sum := by
  unfold sumSq
  suffices h : ∀ a : ℝ, v.foldl (fun s x => s + x * x) a =
      a + (v.map (fun x => x * x)).sum by
    simpa using h 0
  induction v with
  | nil => simp
  | cons x xs ih => intro a; simp [ih]; ring

theorem sumSq_nonneg (v : List ℝ) : 0 ≤ sumSq v := by
  rw [sumSq_eq_sum]
  exact List.sum_nonneg (by
    intro x hx
    obtain ⟨y, _, rfl⟩ := List.mem_map.mp hx
    exact mul_self_nonneg y)

/-! ## Concrete instances used by counterexamples and witnesses -/

def memA : Memory := ⟨"m1", "default", "old text", ["ui"], 1, 1, 1, false⟩

def memB : Memory := ⟨"m2", "default", "other", [], 1, 1, 1, false⟩

def factA : Fact := ⟨"f1", "m1", "dark mode", 1, 1, 1⟩

def factB : Fact := ⟨"f2", "m2", "darker", 1, 1, 1⟩

def rowA : VectorRow := ⟨"f1", 2, 1, [2/5, 0]⟩

def rowB : VectorRow := ⟨"f2", 2, 1, [11/20, 0]⟩

/-- Two memories of the same context, each with one fact and one vector
in the `local_english` namespace. -/
def dbSearch : DB := ⟨[memA, memB], [factA, factB], [], [rowA, rowB], []⟩

/-- A store with one fact and no vectors at all. -/
def dbMiss : DB := ⟨[memA], [factA], [], [], []⟩

/-- A memory stored with a duplicated tag (`createMemory` never
de-duplicates the supplied tag list). -/
def memDup : Memory := ⟨"m3", "default", "t", ["a", "a"], 1, 1, 1, false⟩

def dbDup : DB := ⟨[memDup], [], [], [], []⟩

def dbEmpty : DB := ⟨[], [], [], [], []⟩

/-- A second tenant's memory and fact; the fact has no vector row. -/
def memC : Memory := ⟨"m9", "other", "x", [], 1, 1, 1, false⟩

def factC : Fact := ⟨"f9", "m9", "ytext", 1, 1, 1⟩

/-- Memories of two different contexts; only the first tenant's fact has
a vector in the `local_english` namespace. -/
def dbTenant : DB := ⟨[memA, memC], [factA, factC], [], [rowA], []⟩

/-- Vectors for `f1` in every namespace, plus `f2`'s row. -/
def dbDel : DB := ⟨[memA, memB], [factA, factB],
  [⟨"f1", 2, 1, [1, 0]⟩], [rowA, rowB], [⟨"f1", 2, 1, [0, 1]⟩]⟩

/-! ## Claims -/

/-- C7, counterexample: the backfill set is not restricted to the calling
tenant.  In `dbTenant` the configured context is `"default"`, yet
`getFactsMissingEmbeddings` (which takes no context at all) returns the
fact `f9` whose owning memory belongs to context `"other"`. -/
theorem missing_embeddings_cross_tenant :
    getFactsMissingEmbeddings dbTenant .local_english = [("f9", "ytext")] ∧
    factC.id = "f9" ∧
    (getMemory dbTenant factC.memoryId).map (fun m => m.contextId) = some "other" ∧
    (getMemory dbTenant "m1").map (fun m => m.contextId) = some "default" ∧
    ("other" : String) ≠ "default" := by decide

/-- C7, amended: the backfill set (and its count) is the anti-join between
ALL facts of the store — regardless of tenant — and the target mode's
namespace: exactly the facts with no vector row in that namespace. -/
theorem missing_embeddings_anti_join (db : DB) (etype : EmbeddingType)
    (p : String × String) :
    (p ∈ getFactsMissingEmbeddings db etype ↔
      ∃ f ∈ db.facts, p = (f.id, f.text) ∧ ∀ v ∈ db.ns etype, v.factId ≠ f.id) ∧
    countFactsMissingEmbeddings db etype =
      (getFactsMissingEmbeddings db etype).length := by
  refine ⟨?_, ?_⟩
  · unfold getFactsMissingEmbeddings
    rw [List.mem_map]
    constructor
    · rintro ⟨f, hf, rfl⟩
      rw [List.mem_filter] at hf
      refine ⟨f, hf.1, rfl, fun v hv he => ?_⟩
      have h2 := hf.2
      simp only [Bool.not_eq_true', List.any_eq_false, beq_iff_eq] at h2
      exact h2 v hv he
    · rintro ⟨f, hf, rfl, hv⟩
      refine ⟨f, List.mem_filter.mpr ⟨hf, ?_⟩, rfl⟩
      simp only [Bool.not_eq_true', List.any_eq_false, beq_iff_eq]
      exact hv
  · unfold countFactsMissingEmbeddings getFactsMissingEmbeddings
    rw [List.length_map]

/-- C7, witness: the amended statement evaluated on `dbTenant`. -/
theorem missing_embeddings_anti_join_witness :
    (("f9", "ytext") ∈ getFactsMissingEmbeddings dbTenant .local_english ↔
      ∃ f ∈ dbTenant.facts, ("f9", "ytext") = (f.id, f.text) ∧
        ∀ v ∈ dbTenant.ns .local_english, v.factId ≠ f.id) ∧
    countFactsMissingEmbeddings dbTenant .local_english =
      (getFactsMissingEmbeddings dbTenant .local_english).length :=
  missing_embeddings_anti_join dbTenant .local_english ("f9", "ytext")

/-- C10: the single-memory read path enforces no tenant isolation: for a
memory whose context differs from the caller's, `getMemory` and the
`get_memory` handler still return the memory and its facts, while
`updateMemory`, `updateMemoryTags` and `deleteMemory` treat the very same
memory as not found and leave the store untouched. -/
theorem getMemory_no_tenant_check (db : DB) (m : Memory)
    (ctx text : String) (tags addTags removeTags : List String) (now : Nat)
    (hu : (db.memories.map (fun r => r.id)).Nodup) (hm : m ∈ db.memories)
    (hctx : m.contextId ≠ ctx) :
    getMemory db m.id = some m ∧
    handleGetMemory db m.id = some (m, getFactsByMemoryId db m.id) ∧
    updateMemory db m.id ctx text tags now = (none, db) ∧
    updateMemoryTags db m.id ctx addTags removeTags now = (none, db) ∧
    deleteMemory db m.id ctx = (false, db) := by
  have hg : getMemory db m.id = some m := find?_id_eq hu hm
  have hne : (m.contextId == ctx) = false := by
    simpa using hctx
  refine ⟨hg, ?_, ?_, ?_, ?_⟩
  · unfold handleGetMemory
    rw [hg]
  · simp [updateMemory, hg, hne]
  · simp [updateMemoryTags, hg, hne]
  · simp [deleteMemory, hg, hne]

/-- C10, witness: `memC` (context `"other"`) is readable while the caller
context `"default"` cannot update or delete it. -/
theorem getMemory_no_tenant_check_witness :
    ((dbTenant.memories.map (fun r => r.id)).Nodup ∧ memC ∈ dbTenant.memories ∧
      memC.contextId ≠ "default") ∧
    (getMemory dbTenant memC.id = some memC ∧
      handleGetMemory dbTenant memC.id =
        some (memC, getFactsByMemoryId dbTenant memC.id) ∧
      updateMemory dbTenant memC.id "default" "t" [] 7 = (none, dbTenant) ∧
      updateMemoryTags dbTenant memC.id "default" ["a"] ["b"] 7 = (none, dbTenant) ∧
      deleteMemory dbTenant memC.id "default" = (false, dbTenant)) :=
  ⟨⟨by decide, by decide, by decide⟩,
    getMemory_no_tenant_check dbTenant memC "default" "t" [] ["a"] ["b"] 7
      (by decide) (by decide) (by decide)⟩

/-- C8, counterexample: a tag-only update does not leave the tag list
free of duplicates when the stored list already holds one.  `memDup` is
reachable (`createMemory` stores the supplied tags verbatim), and adding
`"b"` keeps the duplicated `"a"`. -/
theorem updateMemoryTags_duplicate_counterexample :
    memDup.tags = ["a", "a"] ∧
    (createMemory dbEmpty "default" "t" ["a", "a"] "m3" 1).1.tags = ["a", "a"] ∧
    (updateMemoryTags dbDup "m3" "default" ["b"] [] 5).1.map (fun m => m.tags) =
      some ["a", "a", "b"] ∧
    ¬ (["a", "a", "b"] : List String).Nodup := by decide

/-- C8, amended: a tag-only update of an existing, owned memory applies
the remove-set before the add-set (a tag in both sets ends up present),
never introduces a duplicate — so the result is duplicate-free whenever
the stored tag list was — bumps the version by exactly one, rewrites
only tags/updated_at/version of that one memory row, and touches no
fact row and no vector row in any namespace. -/
theorem updateMemoryTags_contract (db : DB) (memoryId contextId : String)
    (addTags removeTags : List String) (now : Nat) (m : Memory)
    (hm : getMemory db memoryId = some m) (hctx : m.contextId = contextId)
    (hnd : m.tags.Nodup) :
    ∃ m', (updateMemoryTags db memoryId contextId addTags removeTags now).1 = some m' ∧
      (∀ t, t ∈ m'.tags ↔ (t ∈ m.tags ∧ t ∉ removeTags) ∨ t ∈ addTags) ∧
      m'.tags.Nodup ∧
      m'.version = m.version + 1 ∧
      m'.text = m.text ∧ m'.id = m.id ∧ m'.contextId = m.contextId ∧
      m'.createdAt = m.createdAt ∧ m'.updatedAt = now ∧
      m'.directAccessOnly = m.directAccessOnly ∧
      (updateMemoryTags db memoryId contextId addTags removeTags now).2.facts =
        db.facts ∧
      (∀ t, (updateMemoryTags db memoryId contextId addTags removeTags now).2.ns t =
        db.ns t) ∧
      (∀ r ∈ db.memories, r.id ≠ memoryId →
        r ∈ (updateMemoryTags db memoryId contextId addTags removeTags now).2.memories) := by
  have hfind : db.memories.find? (fun r => r.id == memoryId) = some m := hm
  have hc : (m.contextId == contextId) = true := by simp [hctx]
  have hres : updateMemoryTags db memoryId contextId addTags removeTags now =
      (getMemory { db with memories := db.memories.map (fun r =>
          if r.id == memoryId then
            { r with tags := applyAddTags (applyRemoveTags m.tags removeTags) addTags,
                     updatedAt := now, version := r.version + 1 }
          else r) } memoryId,
        { db with memories := db.memories.map (fun r =>
          if r.id == memoryId then
            { r with tags := applyAddTags (applyRemoveTags m.tags removeTags) addTags,
                     updatedAt := now, version := r.version + 1 }
          else r) }) := by
    unfold updateMemoryTags
    rw [hm]
    simp only [hc, if_true]
  have hfound := find?_map_update hfind
    (fun r => { r with tags := applyAddTags (applyRemoveTags m.tags removeTags) addTags,
                       updatedAt := now, version := r.version + 1 })
    (fun r => rfl)
  refine ⟨{ m with tags := applyAddTags (applyRemoveTags m.tags removeTags) addTags,
                   updatedAt := now, version := m.version + 1 }, ?_, ?_, ?_, rfl, rfl,
    rfl, rfl, rfl, rfl, rfl, ?_, ?_, ?_⟩
  · rw [hres]
    exact hfound
  · intro t
    rw [mem_applyAddTags, mem_applyRemoveTags]
  · exact nodup_applyAddTags _ _ (nodup_applyRemoveTags _ _ hnd)
  · rw [hres]
  · intro t
    rw [hres]
    cases t <;> rfl
  · intro r hr hne
    rw [hres]
    have : (fun r' : Memory => if r'.id == memoryId then
        { r' with tags := applyAddTags (applyRemoveTags m.tags removeTags) addTags,
                  updatedAt := now, version := r'.version + 1 }
        else r') r = r := by
      simp [hne]
    exact this ▸ List.mem_map_of_mem _ hr

/-- C8, witness: the amended statement evaluated on `dbSearch`
(update of `m1`, add `["dark", "ui"]`, remove `["ui"]`). -/
theorem updateMemoryTags_contract_witness :
    (getMemory dbSearch "m1" = some memA ∧ memA.contextId = "default" ∧
      memA.tags.Nodup) ∧
    (∃ m', (updateMemoryTags dbSearch "m1" "default" ["dark", "ui"] ["ui"] 5).1 =
        some m' ∧
      (∀ t, t ∈ m'.tags ↔ (t ∈ memA.tags ∧ t ∉ (["ui"] : List String)) ∨
        t ∈ (["dark", "ui"] : List String)) ∧
      m'.tags.Nodup ∧
      m'.version = memA.version + 1 ∧
      m'.text = memA.text ∧ m'.id = memA.id ∧ m'.contextId = memA.contextId ∧
      m'.createdAt = memA.createdAt ∧ m'.updatedAt = 5 ∧
      m'.directAccessOnly = memA.directAccessOnly ∧
      (updateMemoryTags dbSearch "m1" "default" ["dark", "ui"] ["ui"] 5).2.facts =
        dbSearch.facts ∧
      (∀ t, (updateMemoryTags dbSearch "m1" "default" ["dark", "ui"] ["ui"] 5).2.ns t =
        dbSearch.ns t) ∧
      (∀ r ∈ dbSearch.memories, r.id ≠ "m1" →
        r ∈ (updateMemoryTags dbSearch "m1" "default" ["dark", "ui"] ["ui"] 5).2.memories)) :=
  ⟨⟨by decide, by decide, by decide⟩,
    updateMemoryTags_contract dbSearch "m1" "default" ["dark", "ui"] ["ui"] 5 memA
      (by decide) (by decide) (by decide)⟩

/-- C9, counterexample: on an uncompilable pattern the thrown message is
`Invalid regex pattern: <compiler message>`; the code itself does not put
the offending pattern into the message, so when the compiler's message
does not quote the pattern (here `"["`), the error does not name it. -/
theorem tag_pattern_error_counterexample :
    getAllTags dbEmpty "default" (some "[")
      (fun _ _ => .error "Unterminated character class") =
      .error "Invalid regex pattern: Unterminated character class" ∧
    charsIncludes "Invalid regex pattern: Unterminated character class".data
      "[".data = false := by decide

/-- C9, amended: a leading inline-flags group `(?flags)` is stripped and
its flags are handed to the regex compiler together with the remainder of
the pattern; if the compiler rejects that remainder, the call fails with
a validation error carrying the compiler's message (prefixed
`Invalid regex pattern: `) and returns no tags — the pattern itself
appears in the message only insofar as the compiler's message quotes it. -/
theorem tag_pattern_flags_and_error (db : DB) (ctx : String)
    (fl rest : List Char) (msg : String)
    (compile : List Char → List Char → Except String (String → Bool))
    (hfl : fl ≠ []) (hflc : ∀ c ∈ fl, flagChar c)
    (hcomp : compile rest fl = .error msg) :
    splitPatternFlags ⟨'(' :: '?' :: (fl ++ ')' :: rest)⟩ = (fl, rest) ∧
    getAllTags db ctx (some ⟨'(' :: '?' :: (fl ++ ')' :: rest)⟩) compile =
      .error ("Invalid regex pattern: " ++ msg) := by
  have htake : (fl ++ ')' :: rest).takeWhile flagChar = fl := by
    clear hcomp hfl
    induction fl with
    | nil =>
      rw [List.nil_append, List.takeWhile_cons,
        if_neg (by rw [show flagChar ')' = false from rfl]; simp)]
    | cons c cs ih =>
      rw [List.cons_append, List.takeWhile_cons, if_pos (hflc c (by simp))]
      rw [ih (fun x hx => hflc x (by simp [hx]))]
  have hdrop : (fl ++ ')' :: rest).drop fl.length = ')' :: rest :=
    List.drop_left fl (')' :: rest)
  have hext : extractInlineFlags ('(' :: '?' :: (fl ++ ')' :: rest)) =
      some (fl, rest) := by
    unfold extractInlineFlags
    simp only [htake]
    rw [if_pos (List.length_pos.mpr hfl), hdrop]
    rfl
  have hsplit : splitPatternFlags ⟨'(' :: '?' :: (fl ++ ')' :: rest)⟩ = (fl, rest) := by
    unfold splitPatternFlags
    rw [show (⟨'(' :: '?' :: (fl ++ ')' :: rest)⟩ : String).data =
      '(' :: '?' :: (fl ++ ')' :: rest) from rfl, hext]
  refine ⟨hsplit, ?_⟩
  simp only [getAllTags]
  rw [if_pos (by simp)]
  rw [hsplit, hcomp]

/-- C9, witness: pattern `(?i)ab` with a compiler that rejects `ab`. -/
theorem tag_pattern_flags_and_error_witness :
    ((['i'] : List Char) ≠ [] ∧ (∀ c ∈ (['i'] : List Char), flagChar c) ∧
      (fun (_ _ : List Char) =>
        (.error "Unterminated group" : Except String (String → Bool)))
        ['a', 'b'] ['i'] = .error "Unterminated group") ∧
    (splitPatternFlags ⟨'(' :: '?' :: (['i'] ++ ')' :: ['a', 'b'])⟩ =
        (['i'], ['a', 'b']) ∧
      getAllTags dbEmpty "default"
        (some ⟨'(' :: '?' :: (['i'] ++ ')' :: ['a', 'b'])⟩)
        (fun _ _ => .error "Unterminated group") =
        .error ("Invalid regex pattern: " ++ "Unterminated group")) :=
  ⟨⟨by decide, by decide, rfl⟩,
    tag_pattern_flags_and_error dbEmpty "default" ['i'] ['a', 'b']
      "Unterminated group" (fun _ _ => .error "Unterminated group")
      (by decide) (by decide) rfl⟩

/-- C2: deleting an existing, owned memory removes exactly its F fact
rows and, in each of the three registered namespaces — not only the
active mode's — every vector row referencing one of those facts; when the
store was referentially intact before, it is intact (zero orphans)
afterwards. -/
theorem deleteMemory_cascades_all_namespaces (db : DB)
    (memoryId contextId : String) (m : Memory)
    (hm : getMemory db memoryId = some m) (hctx : m.contextId = contextId) :
    (deleteMemory db memoryId contextId).1 = true ∧
    (deleteMemory db memoryId contextId).2.facts =
      db.facts.filter (fun f => !(f.memoryId == memoryId)) ∧
    (deleteMemory db memoryId contextId).2.facts.length +
      (getFactsByMemoryId db memoryId).length = db.facts.length ∧
    (∀ t, (deleteMemory db memoryId contextId).2.ns t =
      (db.ns t).filter (fun v =>
        !(((getFactsByMemoryId db memoryId).map (fun f => f.id)).contains
          v.factId))) ∧
    (∀ t, ∀ v ∈ (deleteMemory db memoryId contextId).2.ns t,
      ∀ f ∈ getFactsByMemoryId db memoryId, v.factId ≠ f.id) ∧
    (deleteMemory db memoryId contextId).2.memories =
      db.memories.filter (fun r => !(r.id == memoryId)) ∧
    (Integrity db → Integrity (deleteMemory db memoryId contextId).2) := by
  have hc : (m.contextId == contextId) = true := by simp [hctx]
  have hres : deleteMemory db memoryId contextId =
      (true, (deleteFactsForMemory
        { db with memories := db.memories.filter (fun r => !(r.id == memoryId)) }
        memoryId).2) := by
    unfold deleteMemory
    rw [hm]
    simp only [hc, if_true]
  have hns : ∀ t, (deleteMemory db memoryId contextId).2.ns t =
      (db.ns t).filter (fun v =>
        !(((getFactsByMemoryId db memoryId).map (fun f => f.id)).contains
          v.factId)) := by
    intro t
    rw [hres]
    cases t <;> rfl
  have hfactsEq : (deleteMemory db memoryId contextId).2.facts =
      db.facts.filter (fun f => !(f.memoryId == memoryId)) := by
    rw [hres]
    rfl
  have hmemEq : (deleteMemory db memoryId contextId).2.memories =
      db.memories.filter (fun r => !(r.id == memoryId)) := by
    rw [hres]
    rfl
  have hnotref : ∀ t, ∀ v ∈ (deleteMemory db memoryId contextId).2.ns t,
      ∀ f ∈ getFactsByMemoryId db memoryId, v.factId ≠ f.id := by
    intro t v hv f hf he
    rw [hns t] at hv
    have h2 := (List.mem_filter.mp hv).2
    simp only [Bool.not_eq_true'] at h2
    simp at h2
    exact h2 f hf he.symm
  refine ⟨by rw [hres], hfactsEq, ?_, hns, hnotref, hmemEq, ?_⟩
  · rw [hfactsEq]
    unfold getFactsByMemoryId
    have := length_filter_partition (fun f : Fact => f.memoryId == memoryId) db.facts
    omega
  · rintro ⟨hfm, hvf⟩
    constructor
    · intro f hf
      rw [hfactsEq, List.mem_filter] at hf
      obtain ⟨mo, hmo, hid⟩ := hfm f hf.1
      refine ⟨mo, ?_, hid⟩
      rw [hmemEq, List.mem_filter]
      refine ⟨hmo, ?_⟩
      have : f.memoryId ≠ memoryId := by
        have h2 := hf.2
        rwa [Bool.not_eq_true', beq_eq_false_iff_ne] at h2
      simp [hid, this]
    · intro t v hv
      rw [hns t, List.mem_filter] at hv
      obtain ⟨f, hf, hid⟩ := hvf t v hv.1
      refine ⟨f, ?_, hid⟩
      rw [hfactsEq, List.mem_filter]
      refine ⟨hf, ?_⟩
      rw [Bool.not_eq_true', beq_eq_false_iff_ne]
      intro hfm'
      have h2 := hv.2
      simp only [Bool.not_eq_true'] at h2
      simp at h2
      refine h2 f ?_ hid
      unfold getFactsByMemoryId
      rw [List.mem_filter]
      exact ⟨hf, by simp [hfm']⟩

/-- C2, witness: deleting `m1` from `dbDel` (one fact in each of the
three namespaces references `f1`). -/
theorem deleteMemory_cascades_all_namespaces_witness :
    (getMemory dbDel "m1" = some memA ∧ memA.contextId = "default") ∧
    ((deleteMemory dbDel "m1" "default").1 = true ∧
      (deleteMemory dbDel "m1" "default").2.facts =
        dbDel.facts.filter (fun f => !(f.memoryId == "m1")) ∧
      (deleteMemory dbDel "m1" "default").2.facts.length +
        (getFactsByMemoryId dbDel "m1").length = dbDel.facts.length ∧
      (∀ t, (deleteMemory dbDel "m1" "default").2.ns t =
        (dbDel.ns t).filter (fun v =>
          !(((getFactsByMemoryId dbDel "m1").map (fun f => f.id)).contains
            v.factId))) ∧
      (∀ t, ∀ v ∈ (deleteMemory dbDel "m1" "default").2.ns t,
        ∀ f ∈ getFactsByMemoryId dbDel "m1", v.factId ≠ f.id) ∧
      (deleteMemory dbDel "m1" "default").2.memories =
        dbDel.memories.filter (fun r => !(r.id == "m1")) ∧
      (Integrity dbDel → Integrity (deleteMemory dbDel "m1" "default").2)) :=
  ⟨⟨by decide, by decide⟩,
    deleteMemory_cascades_all_namespaces dbDel "m1" "default" memA
      (by decide) (by decide)⟩

/-- C3: every returned search result scores its fact as
`dot(query, storedVector) + lambda * matchCount(boostTags, memory.tags)`,
where `matchCount` counts each boost tag at most once and a boost tag
matches when (case-insensitively) it contains, or is contained in, some
tag of the owning memory; with no boost tags the score is exactly the
dot product. -/
theorem searchFacts_score_formula (db : DB) (ctx : String) (q : List ℚ)
    (etype : EmbeddingType) (topK : Nat) (boostTags : List String)
    (lambda : ℚ) (r : FactWithScore)
    (hr : r ∈ searchFacts db ctx q etype topK boostTags lambda) :
    ∃ jr ∈ joinRows db ctx etype,
      r.fact = jr.fact ∧ r.memory = jr.mem ∧
      r.score = dotProduct q jr.embedding +
        lambda * matchCount boostTags jr.mem.tags ∧
      (boostTags = [] → r.score = dotProduct q jr.embedding) := by
  obtain ⟨jr, hjr, he⟩ := searchFacts_mem hr
  subst he
  refine ⟨jr, hjr, rfl, rfl, scoreRow_score q boostTags lambda jr, fun hb => ?_⟩
  rw [scoreRow_score q boostTags lambda jr, hb]
  simp [matchCount]

/-- C3, witness: the spec's concrete scenario — raw similarities 2/5 and
11/20, boost tag `"ui"`, lambda 3/10 — where `m1`'s fact is returned with
score 2/5 + 3/10 = 7/10. -/
theorem searchFacts_score_formula_witness :
    ((⟨factA, 7/10, memA⟩ : FactWithScore) ∈
      searchFacts dbSearch "default" [1, 0] .local_english 10 ["ui"] (3/10)) ∧
    (∃ jr ∈ joinRows dbSearch "default" .local_english,
      (⟨factA, 7/10, memA⟩ : FactWithScore).fact = jr.fact ∧
      (⟨factA, 7/10, memA⟩ : FactWithScore).memory = jr.mem ∧
      (⟨factA, 7/10, memA⟩ : FactWithScore).score =
        dotProduct [1, 0] jr.embedding +
          (3/10) * matchCount ["ui"] jr.mem.tags ∧
      ((["ui"] : List String) = [] →
        (⟨factA, 7/10, memA⟩ : FactWithScore).score =
          dotProduct [1, 0] jr.embedding)) :=
  ⟨by decide,
    searchFacts_score_formula dbSearch "default" [1, 0] .local_english 10
      ["ui"] (3/10) ⟨factA, 7/10, memA⟩ (by decide)⟩

/-- C5: tag boosting never filters: with a result limit at least the
size of the namespace's join, the searches with and without boost tags
return the same facts and the same memories (as multisets — a
reordering), for any query and any boost tags. -/
theorem tag_boost_never_filters (db : DB) (ctx : String) (q : List ℚ)
    (etype : EmbeddingType) (topK : Nat) (boostTags : List String)
    (lambda : ℚ) (h : (joinRows db ctx etype).length ≤ topK) :
    ((searchFacts db ctx q etype topK boostTags lambda).map
        (fun r => r.fact.id)).Perm
      ((joinRows db ctx etype).map (fun jr => jr.fact.id)) ∧
    ((searchFacts db ctx q etype topK boostTags lambda).map
        (fun r => r.fact.id)).Perm
      ((searchFacts db ctx q etype topK [] lambda).map (fun r => r.fact.id)) ∧
    ((searchFacts db ctx q etype topK boostTags lambda).map
        (fun r => r.memory.id)).Perm
      ((searchFacts db ctx q etype topK [] lambda).map (fun r => r.memory.id)) := by
  have key : ∀ (bts : List String) (g : FactWithScore → String),
      ((searchFacts db ctx q etype topK bts lambda).map g).Perm
        ((joinRows db ctx etype).map
          (fun jr => g (scoreRow q (bts.map lowerChars) lambda jr))) := by
    intro bts g
    unfold searchFacts
    rw [List.take_of_length_le
      (by rw [(List.perm_insertionSort _ _).length_eq, List.length_map]; exact h)]
    have hp := (List.perm_insertionSort
      (fun a b : FactWithScore => a.score ≥ b.score)
      ((joinRows db ctx etype).map
        (scoreRow q (bts.map lowerChars) lambda))).map g
    rw [List.map_map] at hp
    exact hp
  refine ⟨key boostTags (fun r => r.fact.id), ?_, ?_⟩
  · exact (key boostTags (fun r => r.fact.id)).trans
      (key [] (fun r => r.fact.id)).symm
  · exact (key boostTags (fun r => r.memory.id)).trans
      (key [] (fun r => r.memory.id)).symm

/-- C5, witness: `dbSearch` with limit 10 ≥ 2 facts; boosting with
`["ui"]` reorders but never drops a result. -/
theorem tag_boost_never_filters_witness :
    ((joinRows dbSearch "default" .local_english).length ≤ 10) ∧
    (((searchFacts dbSearch "default" [1, 0] .local_english 10 ["ui"] (3/10)).map
        (fun r => r.fact.id)).Perm
      ((joinRows dbSearch "default" .local_english).map (fun jr => jr.fact.id)) ∧
    ((searchFacts dbSearch "default" [1, 0] .local_english 10 ["ui"] (3/10)).map
        (fun r => r.fact.id)).Perm
      ((searchFacts dbSearch "default" [1, 0] .local_english 10 [] (3/10)).map
        (fun r => r.fact.id)) ∧
    ((searchFacts dbSearch "default" [1, 0] .local_english 10 ["ui"] (3/10)).map
        (fun r => r.memory.id)).Perm
      ((searchFacts dbSearch "default" [1, 0] .local_english 10 [] (3/10)).map
        (fun r => r.memory.id))) :=
  ⟨by decide,
    tag_boost_never_filters dbSearch "default" [1, 0] .local_english 10
      ["ui"] (3/10) (by decide)⟩

/-- C4, counterexample: `normalize` returns a zero-magnitude vector
unchanged (`if (magnitude === 0) return vector`), so the write path
persists the all-zero embedding with L2 norm 0, not 1 — the claimed
invariant fails for a zero raw embedding. -/
theorem normalize_zero_vector_counterexample :
    normalize [(0 : ℝ)] = [0] ∧
    Real.sqrt (sumSq (normalize [(0 : ℝ)])) = 0 ∧ (0 : ℝ) ≠ 1 := by
  have h0 : sumSq [(0 : ℝ)] = 0 := by norm_num [sumSq]
  have hn : normalize [(0 : ℝ)] = [0] := by
    unfold normalize
    rw [h0, Real.sqrt_zero]
    simp
  exact ⟨hn, by rw [hn, h0, Real.sqrt_zero], by norm_num⟩

/-- C4, amended: every embedding whose raw sum of squares is non-zero is
normalized to exact unit L2 norm before it is written (the idealization
of "within floating tolerance"); only the zero vector escapes, being
stored unchanged. -/
theorem normalize_unit_norm (v : List ℝ) (h : sumSq v ≠ 0) :
    Real.sqrt (sumSq (normalize v)) = 1 := by
  have hnn : 0 ≤ sumSq v := sumSq_nonneg v
  have hpos : 0 < sumSq v := lt_of_le_of_ne hnn (Ne.symm h)
  have hm : Real.sqrt (sumSq v) ≠ 0 := ne_of_gt (Real.sqrt_pos.mpr hpos)
  have hnv : normalize v = v.map (fun val => val / Real.sqrt (sumSq v)) := by
    show (if Real.sqrt (sumSq v) = 0 then v
      else v.map (fun val => val / Real.sqrt (sumSq v))) = _
    rw [if_neg hm]
  have hone : sumSq (v.map (fun val => val / Real.sqrt (sumSq v))) = 1 := by
    rw [sumSq_eq_sum, List.map_map]
    have hfun : ((fun x => x * x) ∘ fun val => val / Real.sqrt (sumSq v)) =
        fun x => (x * x) * (Real.sqrt (sumSq v) * Real.sqrt (sumSq v))⁻¹ := by
      funext x
      simp only [Function.comp_apply, div_eq_mul_inv, mul_inv]
      ring
    rw [hfun, List.sum_map_mul_right, Real.mul_self_sqrt hnn, ← sumSq_eq_sum]
    exact mul_inv_cancel₀ h
  rw [hnv, hone, Real.sqrt_one]

/-- C4, witness: the raw embedding `[3, 4]` is stored as `[3/5, 4/5]`,
of unit norm. -/
theorem normalize_unit_norm_witness :
    sumSq [(3 : ℝ), 4] ≠ 0 ∧ Real.sqrt (sumSq (normalize [(3 : ℝ), 4])) = 1 :=
  ⟨by norm_num [sumSq], normalize_unit_norm [3, 4] (by norm_num [sumSq])⟩

/-- C6, counterexample: a batch failure mid-backfill DOES advance the
active mode.  Starting from `local_english`, switching to `openai` with a
valid key and one missing fact whose embedding call fails leaves the
switch reported as failed — but `currentMode` is already `openai`. -/
theorem switch_batch_failure_advances_mode :
    (switchEmbeddingMode ⟨some .local_english, dbMiss⟩ .openai true true
      [.error "quota"]).1 = .error "quota" ∧
    (switchEmbeddingMode ⟨some .local_english, dbMiss⟩ .openai true true
      [.error "quota"]).2.currentMode = some .openai ∧
    (some EmbeddingType.openai ≠ some EmbeddingType.local_english) := by decide

/-- C6, amended: a failed switch is reported as failed, and: a
credential-validation failure (OpenAI target with a missing or invalid
key) IS reported as an error and leaves the whole state — in particular
the active mode — unchanged; every failure that passes the credential
check (a batch failing mid-backfill) leaves the active mode ALREADY
ADVANCED to the target.  In every case nothing is deleted: each
namespace keeps all its previous rows (completed batches' insertions are
retained, only the target namespace grows), and the memory and fact
tables are untouched. -/
theorem switch_failure_state (st : ModeState) (mode : EmbeddingType)
    (keyPresent keyValid : Bool)
    (outcomes : List (Except String (List (List ℚ)))) (e : String)
    (hfail : (switchEmbeddingMode st mode keyPresent keyValid outcomes).1 =
      .error e) :
    (mode = .openai → (keyPresent = false ∨ keyValid = false) →
      (∃ msg, (switchEmbeddingMode st mode keyPresent keyValid outcomes).1 =
        .error msg) ∧
      (switchEmbeddingMode st mode keyPresent keyValid outcomes).2 = st) ∧
    ((mode = .openai → keyPresent = true ∧ keyValid = true) →
      (switchEmbeddingMode st mode keyPresent keyValid outcomes).2.currentMode =
        some mode) ∧
    (∀ t, ∃ extra,
      (switchEmbeddingMode st mode keyPresent keyValid outcomes).2.db.ns t =
        st.db.ns t ++ extra ∧ (t ≠ mode → extra = [])) ∧
    (switchEmbeddingMode st mode keyPresent keyValid outcomes).2.db.memories =
      st.db.memories ∧
    (switchEmbeddingMode st mode keyPresent keyValid outcomes).2.db.facts =
      st.db.facts := by
  cases mode with
  | openai =>
    cases keyPresent with
    | false =>
      exact ⟨fun _ _ =>
          ⟨⟨"Cannot switch to OpenAI mode: OPENAI_API_KEY not set.", rfl⟩, rfl⟩,
        fun h => Bool.noConfusion (h rfl).1,
        fun t => ⟨[], by simp only [List.append_nil]; rfl, fun _ => rfl⟩, rfl, rfl⟩
    | true =>
      cases keyValid with
      | false =>
        exact ⟨fun _ _ =>
            ⟨⟨"Cannot switch to OpenAI mode: API key validation failed.", rfl⟩, rfl⟩,
          fun h => Bool.noConfusion (h rfl).2,
          fun t => ⟨[], by simp only [List.append_nil]; rfl, fun _ => rfl⟩, rfl, rfl⟩
      | true =>
        have hres : switchEmbeddingMode st .openai true true outcomes =
            (if countFactsMissingEmbeddings st.db .openai > 0 then
              match backfillLoop .openai 99 outcomes st.db
                  (getFactsMissingEmbeddings st.db .openai) with
              | (.error e, db') => (.error e, ⟨some .openai, db'⟩)
              | (.ok _, db') =>
                (.ok "Switched to OpenAI embeddings.", ⟨some .openai, db'⟩)
            else (.ok "Switched to OpenAI embeddings.",
              ⟨some .openai, st.db⟩)) := rfl
        by_cases hmc : countFactsMissingEmbeddings st.db .openai > 0
        · rw [hres, if_pos hmc] at hfail ⊢
          obtain ⟨hbns, hbmem, hbfacts⟩ := backfillLoop_frame .openai 99 outcomes
            st.db (getFactsMissingEmbeddings st.db .openai)
          rcases hb : backfillLoop .openai 99 outcomes st.db
            (getFactsMissingEmbeddings st.db .openai) with ⟨r, db'⟩
          rw [hb] at hfail hbns hbmem hbfacts
          cases r with
          | error e' =>
            exact ⟨fun _ hbad =>
                hbad.elim (fun h => Bool.noConfusion h) (fun h => Bool.noConfusion h),
              fun _ => rfl, hbns, hbmem, hbfacts⟩
          | ok u => exact SwitchResult.noConfusion hfail
        · rw [hres, if_neg hmc] at hfail
          exact SwitchResult.noConfusion hfail
  | local_english =>
    have hres : switchEmbeddingMode st .local_english keyPresent keyValid outcomes =
        (if countFactsMissingEmbeddings st.db .local_english > 0 then
          match backfillLoop .local_english 49 outcomes st.db
              (getFactsMissingEmbeddings st.db .local_english) with
          | (.error e, db') => (.error e, ⟨some .local_english, db'⟩)
          | (.ok _, db') =>
            (.ok "Switched to local embeddings.", ⟨some .local_english, db'⟩)
        else (.ok "Switched to local embeddings.",
          ⟨some .local_english, st.db⟩)) := rfl
    by_cases hmc : countFactsMissingEmbeddings st.db .local_english > 0
    · rw [hres, if_pos hmc] at hfail ⊢
      obtain ⟨hbns, hbmem, hbfacts⟩ := backfillLoop_frame .local_english 49 outcomes
        st.db (getFactsMissingEmbeddings st.db .local_english)
      rcases hb : backfillLoop .local_english 49 outcomes st.db
        (getFactsMissingEmbeddings st.db .local_english) with ⟨r, db'⟩
      rw [hb] at hfail hbns hbmem hbfacts
      cases r with
      | error e' =>
        exact ⟨fun h => EmbeddingType.noConfusion h,
          fun _ => rfl, hbns, hbmem, hbfacts⟩
      | ok u => exact SwitchResult.noConfusion hfail
    · rw [hres, if_neg hmc] at hfail
      exact SwitchResult.noConfusion hfail
  | local_multilingual =>
    have hres : switchEmbeddingMode st .local_multilingual keyPresent keyValid
        outcomes =
        (if countFactsMissingEmbeddings st.db .local_multilingual > 0 then
          match backfillLoop .local_multilingual 49 outcomes st.db
              (getFactsMissingEmbeddings st.db .local_multilingual) with
          | (.error e, db') => (.error e, ⟨some .local_multilingual, db'⟩)
          | (.ok _, db') =>
            (.ok "Switched to local embeddings.",
              ⟨some .local_multilingual, db'⟩)
        else (.ok "Switched to local embeddings.",
          ⟨some .local_multilingual, st.db⟩)) := rfl
    by_cases hmc : countFactsMissingEmbeddings st.db .local_multilingual > 0
    · rw [hres, if_pos hmc] at hfail ⊢
      obtain ⟨hbns, hbmem, hbfacts⟩ := backfillLoop_frame .local_multilingual 49
        outcomes st.db (getFactsMissingEmbeddings st.db .local_multilingual)
      rcases hb : backfillLoop .local_multilingual 49 outcomes st.db
        (getFactsMissingEmbeddings st.db .local_multilingual) with ⟨r, db'⟩
      rw [hb] at hfail hbns hbmem hbfacts
      cases r with
      | error e' =>
        exact ⟨fun h => EmbeddingType.noConfusion h,
          fun _ => rfl, hbns, hbmem, hbfacts⟩
      | ok u => exact SwitchResult.noConfusion hfail
    · rw [hres, if_neg hmc] at hfail
      exact SwitchResult.noConfusion hfail

/-- C6, witness: a concrete credential-validation failure — OpenAI target
with an invalid key (`keyValid = false`) from `local_english`.  The
theorem's credential conditional then forces the error report and the
fully unchanged state (the mode-advanced conditional is vacuous here). -/
theorem switch_failure_state_witness :
    ((switchEmbeddingMode ⟨some .local_english, dbMiss⟩ .openai true false []).1 =
      .error "Cannot switch to OpenAI mode: API key validation failed.") ∧
    ((EmbeddingType.openai = .openai → ((true : Bool) = false ∨ (false : Bool) = false) →
      (∃ msg, (switchEmbeddingMode ⟨some .local_english, dbMiss⟩ .openai true
        false []).1 = .error msg) ∧
      (switchEmbeddingMode ⟨some .local_english, dbMiss⟩ .openai true false []).2 =
        ⟨some .local_english, dbMiss⟩) ∧
    ((EmbeddingType.openai = .openai → (true : Bool) = true ∧ (false : Bool) = true) →
      (switchEmbeddingMode ⟨some .local_english, dbMiss⟩ .openai true
        false []).2.currentMode = some .openai) ∧
    (∀ t, ∃ extra,
      (switchEmbeddingMode ⟨some .local_english, dbMiss⟩ .openai true
        false []).2.db.ns t =
        (⟨some .local_english, dbMiss⟩ : ModeState).db.ns t ++ extra ∧
        (t ≠ .openai → extra = [])) ∧
    (switchEmbeddingMode ⟨some .local_english, dbMiss⟩ .openai true
      false []).2.db.memories =
      (⟨some .local_english, dbMiss⟩ : ModeState).db.memories ∧
    (switchEmbeddingMode ⟨some .local_english, dbMiss⟩ .openai true
      false []).2.db.facts =
      (⟨some .local_english, dbMiss⟩ : ModeState).db.facts) :=
  ⟨by decide,
    switch_failure_state ⟨some .local_english, dbMiss⟩ .openai true false []
      "Cannot switch to OpenAI mode: API key validation failed." (by decide)⟩

/-- C1: the full-text update path is NOT all-or-nothing.  The handler
commits the memory-row update and the deletion of the old facts (with
their vectors, in every namespace) BEFORE awaiting the embedding
provider; only the replacement inserts live in a transaction.  Run on
`dbSearch` with an embedding failure: the call reports the provider
error, yet the committed state now holds the new text (version bumped)
with zero facts and the old vector gone — an observable partial state.
The add path, by contrast, performs both provider calls before its
single transaction, so the same failure there writes nothing. -/
theorem update_compound_write_not_atomic :
    (handleUpdateMemoryFull dbSearch "m1" "default" "new text" [] ["new fact"]
        (.error "quota") .local_english ["f9"] 9).1 = .providerError "quota" ∧
    getFactsByMemoryId dbSearch "m1" = [factA] ∧
    (getMemory dbSearch "m1").map (fun m => (m.text, m.version)) =
      some ("old text", 1) ∧
    (getMemory (handleUpdateMemoryFull dbSearch "m1" "default" "new text" []
        ["new fact"] (.error "quota") .local_english ["f9"] 9).2 "m1").map
        (fun m => (m.text, m.version)) = some ("new text", 2) ∧
    getFactsByMemoryId (handleUpdateMemoryFull dbSearch "m1" "default" "new text"
        [] ["new fact"] (.error "quota") .local_english ["f9"] 9).2 "m1" = [] ∧
    (handleUpdateMemoryFull dbSearch "m1" "default" "new text" [] ["new fact"]
        (.error "quota") .local_english ["f9"] 9).2.vecLocalEn = [rowB] ∧
    (handleAddMemory dbSearch "default" "t" [] ["x"] (.error "quota")
        .local_english "m9" ["f9"] 9).1 = .providerError "quota" ∧
    (handleAddMemory dbSearch "default" "t" [] ["x"] (.error "quota")
        .local_english "m9" ["f9"] 9).2 = dbSearch := by decide

end McpMem
